import Mathlib

/-!
Shallow embedding of the resource reconciliation engine of the merge script
(normalizeUrl, normalizeTitle, titleSimilarity, urlSimilarity and the
matching loop of mergeAndUpdateResources).

Modelling conventions, fixed once for the whole development:
* JS strings are Lean strings (sequences of Unicode scalar values); all
  string work is done on the underlying character lists so that every
  definition evaluates by kernel reduction.
* An absent JSON field title or source is represented by the empty string:
  the source only ever consults those fields through JS falsiness checks,
  under which undefined and the empty string behave identically.
* weeks_on_list is an optional non-negative integer, the type given to it
  by the documented schema; absence models a missing field.
* The decimal score literals of the source become exact rationals,
  written with mkRat so every definition evaluates by kernel reduction
  (mkRat 7 10 is 0.7 and so on).  All scores produced are in the finite
  set 0, 0.7, 0.8, 0.9, 1, 1.2, 1.3, 1.5, 1.8, 2, where embedded
  rational comparisons and JS double comparisons agree.
* Case folding is ASCII (the range the resource data uses).
-/

/-- Character test for the JS regex class of whitespace, also used by
String.prototype.trim: tab, line feed, vertical tab, form feed, carriage
return, space, no-break space, ogham space mark, the en-quad..hair-space
range, line separator, paragraph separator, narrow no-break space, medium
mathematical space, ideographic space and the byte order mark. -/
def isWs (c : Char) : Bool :=
  let n := c.toNat
  n == 9 || n == 10 || n == 11 || n == 12 || n == 13 || n == 32 ||
  n == 160 || n == 5760 || (decide (8192 ≤ n) && decide (n ≤ 8202)) ||
  n == 8232 || n == 8233 || n == 8239 || n == 8287 || n == 12288 || n == 65279

/-- ASCII lower-casing of a character list, modelling toLowerCase on the
data the script handles. -/
def lowerChars (l : List Char) : List Char :=
  l.map Char.toLower

/-- Strip leading and trailing whitespace, modelling String.prototype.trim. -/
def trimChars (l : List Char) : List Char :=
  ((l.dropWhile isWs).reverse.dropWhile isWs).reverse

/-- One pass of the global replacement of whitespace runs by a single
space: the flag records whether the previous character was whitespace, so
each maximal run emits exactly one space. -/
def collapseWsAux : Bool → List Char → List Char
  | _, [] => []
  | prevWs, c :: rest =>
    if isWs c then
      if prevWs then collapseWsAux true rest
      else ' ' :: collapseWsAux true rest
    else c :: collapseWsAux false rest

/-- Replace every run of whitespace by one space (the replacement of the
regex of one or more whitespace characters by a single space). -/
def collapseWs (l : List Char) : List Char :=
  collapseWsAux false l

/-- The separator characters replaced by spaces in title normalization:
colon, hyphen-minus, em dash, en dash. -/
def sepToSpace (c : Char) : Char :=
  if c.toNat == 58 || c.toNat == 45 || c.toNat == 8212 || c.toNat == 8211 then ' '
  else c

/-- Boolean prefix test on character lists. -/
def listIsPre : List Char → List Char → Bool
  | [], _ => true
  | _ :: _, [] => false
  | a :: as, b :: bs => a == b && listIsPre as bs

/-- Boolean substring test on character lists: the first list occurs
contiguously in the second, modelling String.prototype.includes. -/
def listHasSub (sub : List Char) : List Char → Bool
  | [] => listIsPre sub []
  | c :: rest => listIsPre sub (c :: rest) || listHasSub sub rest

/-- The receiver string contains the argument string as a substring,
modelling the includes calls of the similarity code. -/
def strIncludes (s sub : String) : Bool :=
  listHasSub sub.data s.data

/-- The characters of the argument up to (excluding) the first occurrence
of the stop character: the head element of a JS split on that character. -/
def takeUntil (stop : Char) : List Char → List Char
  | [] => []
  | c :: rest => if c == stop then [] else c :: takeUntil stop rest

/-- Split a character list at every space character, modelling the JS
split on a single-space separator (empty fields are kept). -/
def splitOnSpaceAux (cur : List Char) : List Char → List String
  | [] => [String.mk cur.reverse]
  | c :: rest =>
    if c == ' ' then String.mk cur.reverse :: splitOnSpaceAux [] rest
    else splitOnSpaceAux (c :: cur) rest

/-- Split a string at every space character. -/
def splitOnSpace (l : List Char) : List String :=
  splitOnSpaceAux [] l

/-- normalizeUrl of the merge script: empty (absent) input gives the empty
string; otherwise lower-case, strip one leading protocol prefix, strip one
leading www prefix, then strip all trailing slashes (the source performs a
second single-trailing-slash removal that is a no-op after the first). -/
def normalizeUrl (url : String) : String :=
  if url = "" then ""
  else
    let lowered := lowerChars url.data
    let noProto :=
      if listIsPre "https://".data lowered then lowered.drop 8
      else if listIsPre "http://".data lowered then lowered.drop 7
      else lowered
    let noWww := if listIsPre "www.".data noProto then noProto.drop 4 else noProto
    String.mk ((noWww.reverse.dropWhile (fun c => c == '/')).reverse)

/-- normalizeTitle of the merge script: empty (absent) input gives the
empty string; otherwise lower-case, trim, replace separator punctuation by
spaces, collapse whitespace runs to single spaces, trim again. -/
def normalizeTitle (title : String) : String :=
  if title = "" then ""
  else
    let lowered := lowerChars title.data
    let trimmed := trimChars lowered
    let separated := trimmed.map sepToSpace
    let collapsed := collapseWs separated
    String.mk (trimChars collapsed)

/-- titleSimilarity of the merge script: 0 when either raw input is
falsy; 1 on equal normalized forms; 0.9 when one normalized form contains
the other; otherwise the word-overlap rule over the sets of tokens longer
than two characters, with the Jaccard quotient of the filter-based
intersection and the union, exactly as the source computes them. -/
def titleSimilarity (title1 title2 : String) : ℚ :=
  if title1 = "" ∨ title2 = "" then 0
  else
    let norm1 := normalizeTitle title1
    let norm2 := normalizeTitle title2
    if norm1 = norm2 then 1
    else if strIncludes norm1 norm2 ∨ strIncludes norm2 norm1 then mkRat 9 10
    else
      let words1 := ((splitOnSpace norm1.data).filter (fun w => 2 < w.length)).toFinset
      let words2 := ((splitOnSpace norm2.data).filter (fun w => 2 < w.length)).toFinset
      if words1.card = 0 ∨ words2.card = 0 then 0
      else
        let inter := words1.filter (fun w => w ∈ words2)
        let uni := words1 ∪ words2
        let overlap : ℚ := mkRat (inter.card : Int) uni.card
        if mkRat 7 10 < overlap then mkRat 8 10
        else if mkRat 5 10 < overlap then mkRat 7 10
        else 0

/-- urlSimilarity of the merge script: 0 when either raw input is falsy;
1 on equal normalized forms; 0.7 on equal domain segments (the part of
the normalized form before the first slash); otherwise 0. -/
def urlSimilarity (url1 url2 : String) : ℚ :=
  if url1 = "" ∨ url2 = "" then 0
  else
    let norm1 := normalizeUrl url1
    let norm2 := normalizeUrl url2
    if norm1 = norm2 then 1
    else
      let domain1 := String.mk (takeUntil '/' norm1.data)
      let domain2 := String.mk (takeUntil '/' norm2.data)
      if domain1 = domain2 then mkRat 7 10 else 0

/-- A catalog entry as the script consumes it: the two matching fields,
the categorical tag (field name type in the JSON schema) and the optional
persistence counter. -/
structure Resource where
  title : String
  source : String
  type : String
  weeks_on_list : Option Nat
  deriving DecidableEq, Inhabited

/-- The three aggregate tallies of one reconciliation run. -/
structure ReconciliationStats where
  exactMatched : Nat
  fuzzyMatched : Nat
  newCount : Nat
  deriving DecidableEq, Inhabited

/-- The scoring decision table of the matching loop, evaluated
top-to-bottom with the first satisfied rule winning. -/
def combinedScore (titleSim urlSim : ℚ) : ℚ :=
  if titleSim = 1 ∧ urlSim = 1 then 2
  else if mkRat 9 10 ≤ titleSim ∧ mkRat 7 10 ≤ urlSim then mkRat 18 10
  else if mkRat 9 10 ≤ titleSim then mkRat 15 10
  else if mkRat 8 10 ≤ titleSim ∧ mkRat 7 10 ≤ urlSim then mkRat 13 10
  else if mkRat 7 10 ≤ titleSim ∧ urlSim = 1 then mkRat 12 10
  else 0

/-- The combined score of one new resource against one prior resource:
the decision table applied to this pair's title and URL similarities. -/
def scorePair (newResource currentResource : Resource) : ℚ :=
  combinedScore (titleSimilarity newResource.title currentResource.title)
    (urlSimilarity newResource.source currentResource.source)

/-- The match-strength label the loop stores when it adopts a new best
score. -/
def matchLabel (score : ℚ) : String :=
  if 2 ≤ score then "exact" else if mkRat 13 10 ≤ score then "fuzzy" else "weak"

/-- One step of the inner loop over prior resources: adopt the candidate
exactly when its score strictly exceeds the best score so far. -/
def considerOne (newResource : Resource) (st : Option Resource × ℚ × String)
    (currentResource : Resource) : Option Resource × ℚ × String :=
  if st.2.1 < scorePair newResource currentResource then
    (some currentResource, scorePair newResource currentResource,
      matchLabel (scorePair newResource currentResource))
  else st

/-- The inner loop of the script: fold the candidate-adoption step over
the prior collection, starting from no match, score 0, label none. -/
def findBest (newResource : Resource) (current : List Resource) :
    Option Resource × ℚ × String :=
  current.foldl (considerOne newResource) (none, 0, "none")

/-- The JS default weeks_on_list (the or-with-1 of the source): absent
and 0 are falsy and give 1, every other number is kept. -/
def weeksOrOne : Option Nat → Nat
  | none => 1
  | some 0 => 1
  | some (n + 1) => n + 1

/-- The body of the outer loop for one new resource: find the best prior
match, accept it when the best score reaches 1.2, then either bump the
matched counter onto the new resource and tally exact or fuzzy by the
stored label, or mark the resource new with counter 1. -/
def updateOne (current : List Resource) (stats : ReconciliationStats)
    (newResource : Resource) : Resource × ReconciliationStats :=
  match findBest newResource current with
  | (some bestMatch, bestScore, matchType) =>
    if mkRat 12 10 ≤ bestScore then
      ({ newResource with weeks_on_list := some (weeksOrOne bestMatch.weeks_on_list + 1) },
       if matchType = "exact" then
         { stats with exactMatched := stats.exactMatched + 1 }
       else
         { stats with fuzzyMatched := stats.fuzzyMatched + 1 })
    else
      ({ newResource with weeks_on_list := some 1 },
       { stats with newCount := stats.newCount + 1 })
  | (none, _, _) =>
    ({ newResource with weeks_on_list := some 1 },
     { stats with newCount := stats.newCount + 1 })

/-- The reconciliation engine: the outer loop of the script over the new
collection, threading the tallies and collecting the annotated resources
in input order. -/
def mergeAndUpdateResources (currentResourcesArray : List Resource)
    (newResources : List Resource) : List Resource × ReconciliationStats :=
  newResources.foldl
    (fun acc newResource =>
      let res := updateOne currentResourcesArray acc.2 newResource
      (acc.1 ++ [res.1], res.2))
    ([], ⟨0, 0, 0⟩)

/-- The annotated resource produced for one new resource; the stats
argument of the loop body does not influence it. -/
def annotate (current : List Resource) (r : Resource) : Resource :=
  (updateOne current ⟨0, 0, 0⟩ r).1

/-- The tally update produced for one new resource. -/
def tally (current : List Resource) (s : ReconciliationStats) (r : Resource) :
    ReconciliationStats :=
  (updateOne current s r).2

/-- The sum of the three tallies. -/
def statsTotal (s : ReconciliationStats) : Nat :=
  s.exactMatched + s.fuzzyMatched + s.newCount

/-- The fields of a resource other than the persistence counter. -/
def resourceShape (r : Resource) : String × String × String :=
  (r.title, r.source, r.type)

/-- Restatement of the title-similarity cascade following the wording of
the specification (intersection and union of the two token sets, emptiness
of the sets themselves), to be compared with the source embedding. -/
def titleSimilaritySpec (a b : String) : ℚ :=
  if a = "" ∨ b = "" then 0
  else if normalizeTitle a = normalizeTitle b then 1
  else if strIncludes (normalizeTitle a) (normalizeTitle b) ∨
      strIncludes (normalizeTitle b) (normalizeTitle a) then mkRat 9 10
  else
    let tokens1 := ((splitOnSpace (normalizeTitle a).data).filter (fun w => 2 < w.length)).toFinset
    let tokens2 := ((splitOnSpace (normalizeTitle b).data).filter (fun w => 2 < w.length)).toFinset
    if tokens1 = ∅ ∨ tokens2 = ∅ then 0
    else
      let overlap : ℚ := mkRat ((tokens1 ∩ tokens2).card : Int) (tokens1 ∪ tokens2).card
      if mkRat 7 10 < overlap then mkRat 8 10
      else if mkRat 5 10 < overlap then mkRat 7 10
      else 0

/-- Every value of the decision table is nonnegative. -/
theorem combinedScore_nonneg (t u : ℚ) : 0 ≤ combinedScore t u := by
  unfold combinedScore
  repeat' split
  all_goals decide

/-- Every value of the decision table is at most 2. -/
theorem combinedScore_le_two (t u : ℚ) : combinedScore t u ≤ 2 := by
  unfold combinedScore
  repeat' split
  all_goals decide

/-- A title similarity below 0.7 forces combined score 0, whatever the
URL similarity is: every rule of the table constrains the title score. -/
theorem combinedScore_title_lt (t u : ℚ) (ht : t < mkRat 7 10) :
    combinedScore t u = 0 := by
  have h7 : ¬ mkRat 7 10 ≤ t := not_le.mpr ht
  have h8 : ¬ mkRat 8 10 ≤ t := fun h => h7 (le_trans (by decide) h)
  have h9 : ¬ mkRat 9 10 ≤ t := fun h => h7 (le_trans (by decide) h)
  have h1 : ¬ t = 1 := fun h => h7 (by rw [h]; decide)
  unfold combinedScore
  rw [if_neg (fun h => h1 h.1), if_neg (fun h => h9 h.1), if_neg h9,
    if_neg (fun h => h8 h.1), if_neg (fun h => h7 h.1)]

/-- Characterization of the inner loop fold from an arbitrary starting
state: either no candidate ever beat the starting score and the state is
returned unchanged, or the final state records some element of the list,
its score and its label, where that element strictly beat the starting
score, strictly beats every earlier element, and is not beaten by any
element of the list — the first-encountered maximum wins. -/
theorem foldBest_char (newR : Resource) (l : List Resource)
    (st : Option Resource × ℚ × String) :
    (List.foldl (considerOne newR) st l = st ∧ ∀ c ∈ l, scorePair newR c ≤ st.2.1) ∨
    (∃ i : Fin l.length,
      List.foldl (considerOne newR) st l =
        (some (l.get i), scorePair newR (l.get i), matchLabel (scorePair newR (l.get i))) ∧
      st.2.1 < scorePair newR (l.get i) ∧
      (∀ j : Fin l.length, (j : ℕ) < (i : ℕ) →
        scorePair newR (l.get j) < scorePair newR (l.get i)) ∧
      (∀ j : Fin l.length, scorePair newR (l.get j) ≤ scorePair newR (l.get i))) := by
  induction l generalizing st with
  | nil =>
    exact Or.inl ⟨rfl, fun c hc => absurd hc (List.not_mem_nil c)⟩
  | cons c rest ih =>
    rw [List.foldl_cons]
    by_cases h : st.2.1 < scorePair newR c
    · have hstep : considerOne newR st c =
          (some c, scorePair newR c, matchLabel (scorePair newR c)) := by
        unfold considerOne
        rw [if_pos h]
      rw [hstep]
      rcases ih (some c, scorePair newR c, matchLabel (scorePair newR c)) with
        ⟨heq, hle⟩ | ⟨i, heq, hgt, hfirst, hmax⟩
      · refine Or.inr ⟨⟨0, Nat.succ_pos rest.length⟩, heq, h, ?_, ?_⟩
        · intro j hj
          exact absurd hj (Nat.not_lt_zero j)
        · intro j
          rcases j with ⟨jv, hjv⟩
          cases jv with
          | zero => exact le_refl _
          | succ k =>
            have hk : k < rest.length := Nat.lt_of_succ_lt_succ hjv
            exact hle (rest.get ⟨k, hk⟩) (rest.get_mem k hk)
      · refine Or.inr ⟨⟨i.val + 1, Nat.succ_lt_succ i.isLt⟩, heq, lt_trans h hgt, ?_, ?_⟩
        · intro j hj
          rcases j with ⟨jv, hjv⟩
          cases jv with
          | zero => exact hgt
          | succ k =>
            have hk : k < rest.length := Nat.lt_of_succ_lt_succ hjv
            exact hfirst ⟨k, hk⟩ (Nat.lt_of_succ_lt_succ hj)
        · intro j
          rcases j with ⟨jv, hjv⟩
          cases jv with
          | zero => exact le_of_lt hgt
          | succ k =>
            have hk : k < rest.length := Nat.lt_of_succ_lt_succ hjv
            exact hmax ⟨k, hk⟩
    · have hstep : considerOne newR st c = st := by
        unfold considerOne
        rw [if_neg h]
      rw [hstep]
      rcases ih st with ⟨heq, hle⟩ | ⟨i, heq, hgt, hfirst, hmax⟩
      · refine Or.inl ⟨heq, ?_⟩
        intro x hx
        rcases List.mem_cons.mp hx with hx0 | hxr
        · rw [hx0]
          exact le_of_not_lt h
        · exact hle x hxr
      · refine Or.inr ⟨⟨i.val + 1, Nat.succ_lt_succ i.isLt⟩, heq, hgt, ?_, ?_⟩
        · intro j hj
          rcases j with ⟨jv, hjv⟩
          cases jv with
          | zero => exact lt_of_le_of_lt (le_of_not_lt h) hgt
          | succ k =>
            have hk : k < rest.length := Nat.lt_of_succ_lt_succ hjv
            exact hfirst ⟨k, hk⟩ (Nat.lt_of_succ_lt_succ hj)
        · intro j
          rcases j with ⟨jv, hjv⟩
          cases jv with
          | zero => exact le_of_lt (lt_of_le_of_lt (le_of_not_lt h) hgt)
          | succ k =>
            have hk : k < rest.length := Nat.lt_of_succ_lt_succ hjv
            exact hmax ⟨k, hk⟩

/-- When the inner loop reports no candidate, its state is the unchanged
starting state and every prior resource scored 0 against the new one. -/
theorem findBest_none_spec (newR : Resource) (current : List Resource)
    (h : (findBest newR current).1 = none) :
    findBest newR current = (none, 0, "none") ∧
    ∀ c ∈ current, scorePair newR c = 0 := by
  rcases foldBest_char newR current (none, 0, "none") with ⟨heq, hle⟩ | ⟨i, heq, -, -, -⟩
  · have hfb : findBest newR current = (none, 0, "none") := heq
    exact ⟨hfb, fun c hc => le_antisymm (hle c hc) (combinedScore_nonneg _ _)⟩
  · exfalso
    have hfb : findBest newR current =
        (some (current.get i), scorePair newR (current.get i),
          matchLabel (scorePair newR (current.get i))) := heq
    rw [hfb] at h
    exact Option.noConfusion h

/-- When the inner loop reports a candidate, the candidate sits in the
prior collection, realizes the reported score, carries the label of that
score, has strictly positive score, strictly beats every earlier element
and is not beaten by any element. -/
theorem findBest_some_spec (newR : Resource) (current : List Resource)
    (bm : Resource) (bs : ℚ) (mt : String)
    (hfb : findBest newR current = (some bm, bs, mt)) :
    mt = matchLabel bs ∧ 0 < bs ∧
    ∃ i : Fin current.length, current.get i = bm ∧
      scorePair newR (current.get i) = bs ∧
      (∀ j : Fin current.length, (j : ℕ) < (i : ℕ) →
        scorePair newR (current.get j) < bs) ∧
      (∀ j : Fin current.length, scorePair newR (current.get j) ≤ bs) := by
  rcases foldBest_char newR current (none, 0, "none") with ⟨heq, -⟩ | ⟨i, heq, hgt, hfirst, hmax⟩
  · exfalso
    have hfb2 : findBest newR current = (none, 0, "none") := heq
    rw [hfb2] at hfb
    exact Option.noConfusion (congrArg Prod.fst hfb)
  · have hfb2 : findBest newR current =
        (some (current.get i), scorePair newR (current.get i),
          matchLabel (scorePair newR (current.get i))) := heq
    rw [hfb2] at hfb
    obtain ⟨h1, h2, h3⟩ : some (current.get i) = some bm ∧
        scorePair newR (current.get i) = bs ∧
        matchLabel (scorePair newR (current.get i)) = mt := by
      refine ⟨congrArg Prod.fst hfb, ?_, ?_⟩
      · exact congrArg (fun p => p.2.1) hfb
      · exact congrArg (fun p => p.2.2) hfb
    refine ⟨by rw [← h3, h2], by rw [← h2]; exact hgt, i, Option.some.inj h1, h2, ?_, ?_⟩
    · intro j hj
      rw [← h2]
      exact hfirst j hj
    · intro j
      rw [← h2]
      exact hmax j

/-- When every prior resource scores 0, the inner loop reports no
candidate. -/
theorem findBest_of_all_zero (newR : Resource) (current : List Resource)
    (h : ∀ c ∈ current, scorePair newR c = 0) :
    findBest newR current = (none, 0, "none") := by
  rcases foldBest_char newR current (none, 0, "none") with ⟨heq, -⟩ | ⟨i, -, hgt, -, -⟩
  · exact heq
  · exfalso
    have hz : scorePair newR (current.get i) = 0 :=
      h (current.get i) (current.get_mem i.val i.isLt)
    rw [hz] at hgt
    exact lt_irrefl 0 hgt

/-- The annotated resource produced by the loop body does not depend on
the tallies accumulated so far. -/
theorem updateOne_fst_stats (current : List Resource) (s t : ReconciliationStats)
    (r : Resource) : (updateOne current s r).1 = (updateOne current t r).1 := by
  unfold updateOne
  rcases hfb : findBest r current with ⟨bm, bs, mt⟩
  cases bm with
  | none => rfl
  | some b =>
    dsimp only
    split <;> rfl

/-- The outer loop splits: the annotated collection is a map over the new
collection, and the tallies are a fold, independent of each other. -/
theorem merge_foldl (current : List Resource) (new : List Resource)
    (accL : List Resource) (accS : ReconciliationStats) :
    new.foldl
      (fun acc newResource =>
        let res := updateOne current acc.2 newResource
        (acc.1 ++ [res.1], res.2))
      (accL, accS) =
    (accL ++ new.map (annotate current), new.foldl (tally current) accS) := by
  induction new generalizing accL accS with
  | nil => simp
  | cons r rest ih =>
    rw [List.foldl_cons, List.foldl_cons]
    show rest.foldl _ (accL ++ [(updateOne current accS r).1], (updateOne current accS r).2) = _
    rw [ih]
    rw [List.map_cons]
    rw [updateOne_fst_stats current accS ⟨0, 0, 0⟩ r]
    rw [show (updateOne current ⟨0, 0, 0⟩ r).1 = annotate current r from rfl]
    rw [show (updateOne current accS r).2 = tally current accS r from rfl]
    simp

/-- The annotated output collection of the engine. -/
theorem merge_fst (current new : List Resource) :
    (mergeAndUpdateResources current new).1 = new.map (annotate current) := by
  unfold mergeAndUpdateResources
  rw [merge_foldl]
  simp

/-- The tallies of the engine. -/
theorem merge_snd (current new : List Resource) :
    (mergeAndUpdateResources current new).2 =
      new.foldl (tally current) ⟨0, 0, 0⟩ := by
  unfold mergeAndUpdateResources
  rw [merge_foldl]

/-- Pair scores never exceed 2. -/
theorem scorePair_le_two (a b : Resource) : scorePair a b ≤ 2 :=
  combinedScore_le_two _ _

/-- Pair scores are nonnegative. -/
theorem scorePair_nonneg (a b : Resource) : 0 ≤ scorePair a b :=
  combinedScore_nonneg _ _

/-- An empty first title scores 0 against anything. -/
theorem titleSimilarity_empty_left (t : String) : titleSimilarity "" t = 0 := by
  unfold titleSimilarity
  rw [if_pos (Or.inl rfl)]

/-- A non-empty title has similarity 1 with itself. -/
theorem titleSimilarity_self (t : String) (h : t ≠ "") : titleSimilarity t t = 1 := by
  simp [titleSimilarity, h]

/-- A non-empty URL has similarity 1 with itself. -/
theorem urlSimilarity_self (u : String) (h : u ≠ "") : urlSimilarity u u = 1 := by
  simp [urlSimilarity, h]

/-- A new resource with empty title scores 0 against every prior one. -/
theorem scorePair_title_empty (newR c : Resource) (h : newR.title = "") :
    scorePair newR c = 0 := by
  unfold scorePair
  rw [h, titleSimilarity_empty_left]
  exact combinedScore_title_lt 0 _ (by decide)

/-- A resource with non-empty title and source scores 2 against itself. -/
theorem scorePair_self (r : Resource) (ht : r.title ≠ "") (hs : r.source ≠ "") :
    scorePair r r = 2 := by
  unfold scorePair
  rw [titleSimilarity_self _ ht, urlSimilarity_self _ hs]
  unfold combinedScore
  rw [if_pos ⟨rfl, rfl⟩]

/-- The JS default of the weeks counter is at least 1. -/
theorem weeksOrOne_pos (w : Option Nat) : 1 ≤ weeksOrOne w := by
  rcases w with - | n
  · exact le_refl 1
  · rcases n with - | m
    · exact le_refl 1
    · exact Nat.succ_le_succ (Nat.zero_le m)

/-- The JS default keeps every nonzero number. -/
theorem weeksOrOne_some (n : Nat) (h : n ≠ 0) : weeksOrOne (some n) = n := by
  rcases n with - | m
  · exact absurd rfl h
  · rfl

/-- The loop body on an accepted match: the counter is bumped from the
matched prior resource and the label decides which tally grows. -/
theorem updateOne_accept (current : List Resource) (stats : ReconciliationStats)
    (newR bm : Resource) (bs : ℚ) (mt : String)
    (hfb : findBest newR current = (some bm, bs, mt)) (hacc : mkRat 12 10 ≤ bs) :
    updateOne current stats newR =
      ({ newR with weeks_on_list := some (weeksOrOne bm.weeks_on_list + 1) },
       if mt = "exact" then { stats with exactMatched := stats.exactMatched + 1 }
       else { stats with fuzzyMatched := stats.fuzzyMatched + 1 }) := by
  unfold updateOne
  rw [hfb]
  dsimp only
  rw [if_pos hacc]

/-- The loop body on a candidate rejected by the threshold. -/
theorem updateOne_reject (current : List Resource) (stats : ReconciliationStats)
    (newR bm : Resource) (bs : ℚ) (mt : String)
    (hfb : findBest newR current = (some bm, bs, mt)) (hr : bs < mkRat 12 10) :
    updateOne current stats newR =
      ({ newR with weeks_on_list := some 1 },
       { stats with newCount := stats.newCount + 1 }) := by
  unfold updateOne
  rw [hfb]
  dsimp only
  rw [if_neg (not_le.mpr hr)]

/-- The loop body when every prior resource scores 0. -/
theorem updateOne_nomatch (current : List Resource) (stats : ReconciliationStats)
    (newR : Resource) (h : ∀ c ∈ current, scorePair newR c = 0) :
    updateOne current stats newR =
      ({ newR with weeks_on_list := some 1 },
       { stats with newCount := stats.newCount + 1 }) := by
  unfold updateOne
  rw [findBest_of_all_zero newR current h]

/-- Every annotated resource carries a counter of at least 1. -/
theorem annotate_weeks (current : List Resource) (r : Resource) :
    ∃ n, (annotate current r).weeks_on_list = some n ∧ 1 ≤ n := by
  unfold annotate updateOne
  rcases hfb : findBest r current with ⟨bm, bs, mt⟩
  cases bm with
  | none => exact ⟨1, rfl, le_refl 1⟩
  | some b =>
    dsimp only
    by_cases hb : mkRat 12 10 ≤ bs
    · rw [if_pos hb]
      exact ⟨weeksOrOne b.weeks_on_list + 1, rfl, Nat.le_add_left 1 _⟩
    · rw [if_neg hb]
      exact ⟨1, rfl, le_refl 1⟩

/-- Annotation only rewrites the counter: title, source and type are kept. -/
theorem annotate_shape (current : List Resource) (r : Resource) :
    resourceShape (annotate current r) = resourceShape r := by
  unfold annotate updateOne
  rcases hfb : findBest r current with ⟨bm, bs, mt⟩
  cases bm with
  | none => rfl
  | some b =>
    dsimp only
    split <;> rfl

/-- Each loop iteration grows the sum of the three tallies by exactly 1. -/
theorem tally_total (current : List Resource) (s : ReconciliationStats) (r : Resource) :
    statsTotal (tally current s r) = statsTotal s + 1 := by
  unfold tally updateOne
  rcases hfb : findBest r current with ⟨bm, bs, mt⟩
  cases bm with
  | none =>
    unfold statsTotal
    dsimp only
    omega
  | some b =>
    dsimp only
    by_cases hb : mkRat 12 10 ≤ bs
    · rw [if_pos hb]
      by_cases hm : mt = "exact"
      · rw [if_pos hm]
        unfold statsTotal
        dsimp only
        omega
      · rw [if_neg hm]
        unfold statsTotal
        dsimp only
        omega
    · rw [if_neg hb]
      unfold statsTotal
      dsimp only
      omega

/-- Folding the tally update over a list grows the total by its length. -/
theorem foldl_tally_total (current : List Resource) (l : List Resource)
    (s : ReconciliationStats) :
    statsTotal (l.foldl (tally current) s) = statsTotal s + l.length := by
  induction l generalizing s with
  | nil => simp
  | cons r rest ih =>
    rw [List.foldl_cons, ih, tally_total, List.length_cons]
    omega

/-- Filtering one finite set by membership in another is their
intersection. -/
theorem finset_filter_mem_inter (s t : Finset String) :
    s.filter (fun w => w ∈ t) = s ∩ t := by
  ext w
  simp [Finset.mem_filter, Finset.mem_inter]

/-- Against a collection containing itself at position i, with non-empty
title and source everywhere and no earlier entry reaching score 2, the
inner loop selects the entry itself with score 2 and label exact. -/
theorem findBest_self (prior : List Resource)
    (h1 : ∀ r ∈ prior, r.title ≠ "" ∧ r.source ≠ "")
    (h3 : ∀ i j : Fin prior.length, (j : ℕ) < (i : ℕ) →
      scorePair (prior.get i) (prior.get j) < 2)
    (i : Fin prior.length) :
    findBest (prior.get i) prior = (some (prior.get i), 2, "exact") := by
  have hmem : prior.get i ∈ prior := prior.get_mem i.val i.isLt
  have hself : scorePair (prior.get i) (prior.get i) = 2 :=
    scorePair_self _ (h1 _ hmem).1 (h1 _ hmem).2
  rcases foldBest_char (prior.get i) prior (none, 0, "none") with
    ⟨-, hle⟩ | ⟨k, heq, -, hfirst, hmax⟩
  · exfalso
    have h20 := hle (prior.get i) hmem
    rw [hself] at h20
    exact absurd h20 (by decide)
  · have hbs2 : scorePair (prior.get i) (prior.get k) = 2 := by
      refine le_antisymm (scorePair_le_two _ _) ?_
      have hx := hmax i
      rw [hself] at hx
      exact hx
    have hki : (k : ℕ) = (i : ℕ) := by
      rcases Nat.lt_trichotomy (k : ℕ) (i : ℕ) with hlt | heqn | hgtn
      · exfalso
        have hcon := h3 i k hlt
        rw [hbs2] at hcon
        exact lt_irrefl 2 hcon
      · exact heqn
      · exfalso
        have hcon := hfirst i hgtn
        rw [hself, hbs2] at hcon
        exact lt_irrefl 2 hcon
    have hk : k = i := Fin.ext hki
    rw [hk, hself] at heq
    have hlab : matchLabel 2 = "exact" := by decide
    rw [hlab] at heq
    exact heq

/-- The loop body on the entry at position i of a self-reconciliation:
the counter is bumped from the entry itself and the exact tally grows. -/
theorem updateOne_self (prior : List Resource) (stats : ReconciliationStats)
    (h1 : ∀ r ∈ prior, r.title ≠ "" ∧ r.source ≠ "")
    (h3 : ∀ i j : Fin prior.length, (j : ℕ) < (i : ℕ) →
      scorePair (prior.get i) (prior.get j) < 2)
    (i : Fin prior.length) :
    updateOne prior stats (prior.get i) =
      ({ prior.get i with
          weeks_on_list := some (weeksOrOne (prior.get i).weeks_on_list + 1) },
       { stats with exactMatched := stats.exactMatched + 1 }) := by
  rw [updateOne_accept prior stats _ _ 2 "exact" (findBest_self prior h1 h3 i) (by decide)]
  rw [if_pos rfl]

/-- Folding a tally step that always grows the exact tally accumulates
the length of the list onto it and leaves the other two unchanged. -/
theorem foldl_tally_exact (current : List Resource) (l : List Resource)
    (s : ReconciliationStats)
    (h : ∀ r ∈ l, ∀ t : ReconciliationStats, tally current t r =
      { t with exactMatched := t.exactMatched + 1 }) :
    l.foldl (tally current) s =
      { s with exactMatched := s.exactMatched + l.length } := by
  induction l generalizing s with
  | nil => simp
  | cons r rest ih =>
    obtain ⟨e, f, n⟩ := s
    rw [List.foldl_cons, h r (List.mem_cons_self r rest) ⟨e, f, n⟩,
      ih _ (fun x hx t => h x (List.mem_cons_of_mem r hx) t), List.length_cons]
    dsimp only
    simp only [ReconciliationStats.mk.injEq]
    exact ⟨by omega, trivial, trivial⟩

/-- Claim C2: for all string inputs, titleSimilarity is the short-circuit
cascade stated in the specification: 0 when either raw input is empty,
1 on equal normalized forms, 0.9 when one normalized form is a substring
of the other, and otherwise the Jaccard word-overlap rule over the sets
of tokens longer than two characters, yielding 0.8 above 0.7, 0.7 above
0.5 and 0 otherwise, with 0 when either token set is empty. -/
theorem C2_title_similarity_cascade (a b : String) :
    titleSimilarity a b = titleSimilaritySpec a b := by
  simp only [titleSimilarity, titleSimilaritySpec, finset_filter_mem_inter,
    Finset.card_eq_zero]

/-- Claim C3 counterexample: a new resource with an absent source but a
title identical to a prior resource is not classified as new: the title
rule alone scores 1.5, the match is accepted as fuzzy, the counter is
bumped to 4 and the new tally stays 0, against the claimed counter 1 and
new tally 1. -/
theorem C3_counterexample :
    mergeAndUpdateResources [Resource.mk "clean code" "example.com" "book" (some 3)]
        [Resource.mk "clean code" "" "article" none] =
      ([Resource.mk "clean code" "" "article" (some 4)], ⟨0, 1, 0⟩) ∧
    (some 4 : Option Nat) ≠ some 1 ∧ (0 : Nat) ≠ 1 := by decide

/-- Claim C3 as amended: a new resource with an absent or empty title is
always classified as new — the empty title scores 0 against every prior
resource, the counter is set to 1 and the new tally is incremented; no
failure path exists, the body is total.  An absent source alone does not
force this: it only zeroes the URL similarity, and the title rules can
still accept a match. -/
theorem C3_amended_empty_title_new (current : List Resource)
    (stats : ReconciliationStats) (newR : Resource) (h : newR.title = "") :
    updateOne current stats newR =
      ({ newR with weeks_on_list := some 1 },
       { stats with newCount := stats.newCount + 1 }) :=
  updateOne_nomatch current stats newR fun c _ => scorePair_title_empty newR c h

/-- Claim C3 witness: the amended theorem applied to a concrete resource
with empty title against a non-trivial prior collection. -/
theorem C3_amended_witness :
    updateOne [Resource.mk "clean code" "example.com" "book" (some 3)] ⟨0, 0, 0⟩
        (Resource.mk "" "example.com" "article" none) =
      (Resource.mk "" "example.com" "article" (some 1), ⟨0, 0, 1⟩) :=
  C3_amended_empty_title_new _ _ _ rfl

/-- Claim C4 counterexample: a matched prior resource with the numeric
counter value 0 is bumped to 2, not to 0 + 1 = 1 as the claim states for
numeric values — 0 is falsy in JS and falls into the default. -/
theorem C4_counterexample :
    (mergeAndUpdateResources [Resource.mk "clean code" "example.com" "book" (some 0)]
        [Resource.mk "clean code" "example.com" "book" none]).1 =
      [Resource.mk "clean code" "example.com" "book" (some 2)] ∧
    (some 2 : Option Nat) ≠ some (0 + 1) := by decide

/-- Claim C4 as amended: on an accepted match the new counter is the JS
default of the prior counter plus one: an absent or zero (falsy) prior
counter is treated as 1, giving 2; a nonzero numeric prior counter n
gives n + 1. -/
theorem C4_amended_counter_bump (current : List Resource)
    (stats : ReconciliationStats) (newR bm : Resource) (bs : ℚ) (mt : String)
    (hfb : findBest newR current = (some bm, bs, mt)) (hacc : mkRat 12 10 ≤ bs) :
    (updateOne current stats newR).1.weeks_on_list =
      some (weeksOrOne bm.weeks_on_list + 1) ∧
    (bm.weeks_on_list = none ∨ bm.weeks_on_list = some 0 →
      (updateOne current stats newR).1.weeks_on_list = some 2) ∧
    (∀ n, bm.weeks_on_list = some n → n ≠ 0 →
      (updateOne current stats newR).1.weeks_on_list = some (n + 1)) := by
  rw [updateOne_accept current stats newR bm bs mt hfb hacc]
  refine ⟨rfl, ?_, ?_⟩
  · rintro (hw | hw) <;> rw [hw] <;> rfl
  · intro n hw hn
    rw [hw, weeksOrOne_some n hn]

/-- Claim C4 witness: the amended theorem applied to a concrete exact
match whose prior counter is 5, yielding 6. -/
theorem C4_amended_witness :
    (updateOne [Resource.mk "clean code" "example.com" "book" (some 5)] ⟨0, 0, 0⟩
        (Resource.mk "clean code" "example.com" "book" none)).1.weeks_on_list =
      some 6 :=
  (C4_amended_counter_bump [Resource.mk "clean code" "example.com" "book" (some 5)]
      ⟨0, 0, 0⟩ (Resource.mk "clean code" "example.com" "book" none)
      (Resource.mk "clean code" "example.com" "book" (some 5)) 2 "exact"
      (by decide) (by decide)).2.2 5 rfl (by decide)

/-- Claim C6: every resource in the output collection of the engine
carries a counter of at least 1: matched resources get the positive JS
default plus one, new resources get exactly 1. -/
theorem C6_weeks_at_least_one (current new : List Resource) (r : Resource)
    (h : r ∈ (mergeAndUpdateResources current new).1) :
    ∃ n, r.weeks_on_list = some n ∧ 1 ≤ n := by
  rw [merge_fst] at h
  rcases List.mem_map.mp h with ⟨r0, -, rfl⟩
  exact annotate_weeks current r0

/-- Claim C6 witness: the invariant applied to the single output entry of
a concrete run with no prior resources. -/
theorem C6_weeks_witness :
    ∃ n, (Resource.mk "totally new resource" "new.example.org" "article"
        (some 1)).weeks_on_list = some n ∧ 1 ≤ n :=
  C6_weeks_at_least_one []
    [Resource.mk "totally new resource" "new.example.org" "article" none]
    (Resource.mk "totally new resource" "new.example.org" "article" (some 1))
    (by decide)

/-- Claim C7: the output collection has the same cardinality and order as
the new input collection and each entry keeps its title, source and type,
only the counter being rewritten; the prior collection is never written
to — the engine is a pure function of its two arguments and its result
contains no modified prior entry. -/
theorem C7_output_shape (current new : List Resource) :
    (mergeAndUpdateResources current new).1.length = new.length ∧
    (mergeAndUpdateResources current new).1.map resourceShape =
      new.map resourceShape := by
  constructor
  · rw [merge_fst, List.length_map]
  · rw [merge_fst, List.map_map]
    exact List.map_congr_left fun r _ => annotate_shape current r

/-- Claim C8: the three tallies always partition the new collection:
each iteration of the loop increments exactly one of them. -/
theorem C8_tally_partition (current new : List Resource) :
    (mergeAndUpdateResources current new).2.exactMatched +
      (mergeAndUpdateResources current new).2.fuzzyMatched +
      (mergeAndUpdateResources current new).2.newCount = new.length := by
  have h := foldl_tally_total current new ⟨0, 0, 0⟩
  rw [← merge_snd] at h
  unfold statsTotal at h
  simpa using h

/-- Claim C10: URL similarity alone never produces an accepted match:
when every prior title scores below 0.7 against the new title, every
combined score is 0 — each table rule constrains the title score — so
the resource is classified as new even when a source URL coincides
exactly with a prior one. -/
theorem C10_url_alone_never_matches (current : List Resource)
    (stats : ReconciliationStats) (newR : Resource)
    (h : ∀ c ∈ current, titleSimilarity newR.title c.title < mkRat 7 10) :
    (∀ c ∈ current, scorePair newR c = 0) ∧
    updateOne current stats newR =
      ({ newR with weeks_on_list := some 1 },
       { stats with newCount := stats.newCount + 1 }) := by
  have hz : ∀ c ∈ current, scorePair newR c = 0 := fun c hc =>
    combinedScore_title_lt _ _ (h c hc)
  exact ⟨hz, updateOne_nomatch current stats newR hz⟩

/-- Claim C10 witness: a new resource whose source equals the prior
resource's source exactly but whose title shares no words with it is
classified as new. -/
theorem C10_witness :
    updateOne [Resource.mk "delta epsilon zeta" "example.com" "book" (some 5)]
        ⟨0, 0, 0⟩ (Resource.mk "alpha beta gamma" "example.com" "article" none) =
      (Resource.mk "alpha beta gamma" "example.com" "article" (some 1),
        ⟨0, 0, 1⟩) :=
  (C10_url_alone_never_matches _ _ _ (by decide)).2

/-- Claim C9: on an accepted match the exact tally is incremented exactly
when the best combined score reaches 2.0; every other accepted match —
including a weak one accepted at exactly 1.2 — goes to the fuzzy tally,
and no separate weak tally exists in the statistics record. -/
theorem C9_exact_iff_two (current : List Resource) (stats : ReconciliationStats)
    (newR bm : Resource) (bs : ℚ) (mt : String)
    (hfb : findBest newR current = (some bm, bs, mt)) (hacc : mkRat 12 10 ≤ bs) :
    ((updateOne current stats newR).2.exactMatched = stats.exactMatched + 1 ↔
      2 ≤ bs) ∧
    (2 ≤ bs → (updateOne current stats newR).2 =
      { stats with exactMatched := stats.exactMatched + 1 }) ∧
    (bs < 2 → (updateOne current stats newR).2 =
      { stats with fuzzyMatched := stats.fuzzyMatched + 1 }) := by
  obtain ⟨hmt, -, -⟩ := findBest_some_spec newR current bm bs mt hfb
  rw [updateOne_accept current stats newR bm bs mt hfb hacc]
  by_cases h2 : (2 : ℚ) ≤ bs
  · have hlab : mt = "exact" := by
      rw [hmt]
      unfold matchLabel
      rw [if_pos h2]
    rw [if_pos hlab]
    exact ⟨iff_of_true rfl h2, fun _ => rfl, fun hlt => absurd h2 (not_le.mpr hlt)⟩
  · have hlab : mt ≠ "exact" := by
      rw [hmt]
      unfold matchLabel
      rw [if_neg h2]
      by_cases h13 : mkRat 13 10 ≤ bs
      · rw [if_pos h13]
        decide
      · rw [if_neg h13]
        decide
    rw [if_neg hlab]
    exact ⟨iff_of_false (by dsimp only; omega) h2,
      fun h2x => absurd h2x h2, fun _ => rfl⟩

/-- Claim C9 witness: a weak match accepted at exactly 1.2 (title word
overlap 2/3, identical URL) is tallied as fuzzy. -/
theorem C9_weak_counts_fuzzy_witness :
    (updateOne [Resource.mk "aaa bbb ccc" "example.com/x" "book" (some 1)]
        ⟨0, 0, 0⟩ (Resource.mk "bbb aaa" "example.com/x" "book" none)).2 =
      (⟨0, 1, 0⟩ : ReconciliationStats) :=
  (C9_exact_iff_two [Resource.mk "aaa bbb ccc" "example.com/x" "book" (some 1)]
      ⟨0, 0, 0⟩ (Resource.mk "bbb aaa" "example.com/x" "book" none)
      (Resource.mk "aaa bbb ccc" "example.com/x" "book" (some 1)) (mkRat 12 10)
      "weak" (by decide) (by decide)).2.2 (by decide)

/-- Claim C1: the combined score of each pair is the fixed decision table
evaluated top-to-bottom with the first satisfied rule winning; the inner
loop returns a score bounding every pair score, its candidate — when one
exists — is a prior entry realizing that score with strictly positive
score and strictly beating every earlier entry (ties keep the first
encountered); with no candidate all scores are 0; and the candidate is
accepted (the new tally is left alone) exactly when the best score is at
least 1.2. -/
theorem C1_matcher_decision (newR : Resource) (current : List Resource)
    (stats : ReconciliationStats) :
    (∀ t u : ℚ, combinedScore t u =
      if t = 1 ∧ u = 1 then 2
      else if mkRat 9 10 ≤ t ∧ mkRat 7 10 ≤ u then mkRat 18 10
      else if mkRat 9 10 ≤ t then mkRat 15 10
      else if mkRat 8 10 ≤ t ∧ mkRat 7 10 ≤ u then mkRat 13 10
      else if mkRat 7 10 ≤ t ∧ u = 1 then mkRat 12 10
      else 0) ∧
    (∀ c ∈ current, scorePair newR c ≤ (findBest newR current).2.1) ∧
    (∀ bm, (findBest newR current).1 = some bm →
      ∃ i : Fin current.length, current.get i = bm ∧
        scorePair newR (current.get i) = (findBest newR current).2.1 ∧
        0 < (findBest newR current).2.1 ∧
        ∀ j : Fin current.length, (j : ℕ) < (i : ℕ) →
          scorePair newR (current.get j) < (findBest newR current).2.1) ∧
    ((findBest newR current).1 = none → ∀ c ∈ current, scorePair newR c = 0) ∧
    ((updateOne current stats newR).2.newCount = stats.newCount ↔
      mkRat 12 10 ≤ (findBest newR current).2.1) := by
  refine ⟨fun t u => rfl, ?_, ?_, ?_, ?_⟩
  · intro c hc
    rcases hfb : findBest newR current with ⟨bm, bs, mt⟩
    dsimp only
    cases bm with
    | none =>
      obtain ⟨htrip, hzero⟩ := findBest_none_spec newR current (by rw [hfb])
      have hbs : bs = 0 := by
        rw [hfb] at htrip
        exact congrArg (fun p => p.2.1) htrip
      rw [hzero c hc, hbs]
    | some b =>
      obtain ⟨-, -, i, -, -, -, hmax⟩ := findBest_some_spec newR current b bs mt hfb
      obtain ⟨j, hj⟩ := List.mem_iff_get.mp hc
      rw [← hj]
      exact hmax j
  · rcases hfb : findBest newR current with ⟨bm0, bs, mt⟩
    dsimp only
    intro bm hsome
    cases bm0 with
    | none => exact Option.noConfusion hsome
    | some b =>
      obtain ⟨-, hpos, i, hib, hscore, hfirst, -⟩ :=
        findBest_some_spec newR current b bs mt hfb
      have hbb : b = bm := Option.some.inj hsome
      exact ⟨i, hbb ▸ hib, hscore, hscore ▸ hpos, fun j hj => hfirst j hj⟩
  · rcases hfb : findBest newR current with ⟨bm0, bs, mt⟩
    dsimp only
    intro hnone
    subst hnone
    exact (findBest_none_spec newR current (by rw [hfb])).2
  · rcases hfb : findBest newR current with ⟨bm0, bs, mt⟩
    dsimp only
    cases bm0 with
    | none =>
      have hupd : updateOne current stats newR =
          ({ newR with weeks_on_list := some 1 },
           { stats with newCount := stats.newCount + 1 }) := by
        unfold updateOne
        rw [hfb]
      obtain ⟨htrip, -⟩ := findBest_none_spec newR current (by rw [hfb])
      have hbs : bs = 0 := by
        rw [hfb] at htrip
        exact congrArg (fun p => p.2.1) htrip
      rw [hupd]
      refine iff_of_false (by dsimp only; omega) ?_
      rw [hbs]
      decide
    | some b =>
      by_cases hacc : mkRat 12 10 ≤ bs
      · rw [updateOne_accept current stats newR b bs mt hfb hacc]
        refine iff_of_true ?_ hacc
        by_cases hm : mt = "exact"
        · rw [if_pos hm]
        · rw [if_neg hm]
      · rw [updateOne_reject current stats newR b bs mt hfb (not_le.mp hacc)]
        exact iff_of_false (by dsimp only; omega) hacc

/-- Claim C1 witness: the acceptance equivalence evaluated on a concrete
exact match. -/
theorem C1_matcher_witness :
    ((updateOne [Resource.mk "clean code" "example.com" "book" (some 3)] ⟨0, 0, 0⟩
        (Resource.mk "clean code" "example.com" "book" none)).2.newCount = 0 ↔
      mkRat 12 10 ≤ (findBest (Resource.mk "clean code" "example.com" "book" none)
        [Resource.mk "clean code" "example.com" "book" (some 3)]).2.1) :=
  (C1_matcher_decision (Resource.mk "clean code" "example.com" "book" none)
    [Resource.mk "clean code" "example.com" "book" (some 3)] ⟨0, 0, 0⟩).2.2.2.2

/-- Claim C5 counterexample: reconciling a collection against an
identical copy of itself does not always bump every counter — an entry
with empty title and source scores 0 against itself, is classified as
new with counter 1 instead of 3 + 1, and the exact tally stays 0 instead
of reaching the length 1. -/
theorem C5_counterexample :
    mergeAndUpdateResources [Resource.mk "" "" "" (some 3)]
        [Resource.mk "" "" "" (some 3)] =
      ([Resource.mk "" "" "" (some 1)], ⟨0, 0, 1⟩) ∧
    (some 1 : Option Nat) ≠ some (3 + 1) ∧ (0 : Nat) ≠ 1 := by decide

/-- Claim C5 as amended: reconciling a prior collection against an
identical copy of itself bumps every counter by one and tallies every
entry as exact, provided every entry has a non-empty title and source, a
present nonzero counter, and no entry reaches combined score 2.0 against
an earlier entry (distinct normalized titles suffice; an exact duplicate
row would match the earlier copy and inherit its counter instead). -/
theorem C5_self_reconcile (prior : List Resource)
    (h1 : ∀ r ∈ prior, r.title ≠ "" ∧ r.source ≠ "")
    (h2 : ∀ r ∈ prior, r.weeks_on_list ≠ none ∧ r.weeks_on_list ≠ some 0)
    (h3 : ∀ i j : Fin prior.length, (j : ℕ) < (i : ℕ) →
      scorePair (prior.get i) (prior.get j) < 2) :
    (mergeAndUpdateResources prior prior).2.exactMatched = prior.length ∧
    (mergeAndUpdateResources prior prior).2.fuzzyMatched = 0 ∧
    (mergeAndUpdateResources prior prior).2.newCount = 0 ∧
    ∀ i : Fin prior.length, ∀ n, (prior.get i).weeks_on_list = some n →
      ((mergeAndUpdateResources prior prior).1.getD (i : ℕ)
        default).weeks_on_list = some (n + 1) := by
  have htally : ∀ r ∈ prior, ∀ t : ReconciliationStats, tally prior t r =
      { t with exactMatched := t.exactMatched + 1 } := by
    intro r hr t
    obtain ⟨i, hi⟩ := List.mem_iff_get.mp hr
    unfold tally
    rw [← hi, updateOne_self prior t h1 h3 i]
  have hst : (mergeAndUpdateResources prior prior).2 =
      { (⟨0, 0, 0⟩ : ReconciliationStats) with
        exactMatched := 0 + prior.length } := by
    rw [merge_snd]
    exact foldl_tally_exact prior prior ⟨0, 0, 0⟩ htally
  refine ⟨?_, ?_, ?_, ?_⟩
  · rw [hst]
    dsimp only
    omega
  · rw [hst]
  · rw [hst]
  · intro i n hw
    have hn : n ≠ 0 := by
      intro h0
      exact (h2 (prior.get i) (prior.get_mem i.val i.isLt)).2 (by rw [hw, h0])
    have hann : (annotate prior (prior.get i)).weeks_on_list = some (n + 1) := by
      unfold annotate
      rw [updateOne_self prior ⟨0, 0, 0⟩ h1 h3 i]
      dsimp only
      rw [hw, weeksOrOne_some n hn]
    rw [merge_fst]
    have hlen2 : (i : ℕ) < (prior.map (annotate prior)).length := by
      rw [List.length_map]
      exact i.isLt
    rw [List.getD_eq_get _ _ hlen2]
    simp only [List.get_eq_getElem, List.getElem_map]
    exact hann

/-- Claim C5 witness: the amended theorem on a concrete two-entry
collection with distinct titles — both entries match themselves exactly,
the exact tally equals the length 2 and the first counter goes 3 to 4. -/
theorem C5_self_witness :
    (mergeAndUpdateResources
        [Resource.mk "clean code" "example.com" "book" (some 3),
          Resource.mk "deep learning" "dl.org" "book" (some 1)]
        [Resource.mk "clean code" "example.com" "book" (some 3),
          Resource.mk "deep learning" "dl.org" "book" (some 1)]).2.exactMatched = 2 ∧
    ((mergeAndUpdateResources
        [Resource.mk "clean code" "example.com" "book" (some 3),
          Resource.mk "deep learning" "dl.org" "book" (some 1)]
        [Resource.mk "clean code" "example.com" "book" (some 3),
          Resource.mk "deep learning" "dl.org" "book" (some 1)]).1.getD 0
        default).weeks_on_list = some 4 := by
  refine ⟨(C5_self_reconcile
    [Resource.mk "clean code" "example.com" "book" (some 3),
      Resource.mk "deep learning" "dl.org" "book" (some 1)]
    (by decide) (by decide) (by decide)).1, ?_⟩
  exact (C5_self_reconcile
    [Resource.mk "clean code" "example.com" "book" (some 3),
      Resource.mk "deep learning" "dl.org" "book" (some 1)]
    (by decide) (by decide) (by decide)).2.2.2 ⟨0, by decide⟩ 3 rfl
